import Mathlib

/-!
# Verification of the holidays-rs query engine

A shallow embedding of the holiday-query library (calendar arithmetic,
country bitsets, date-predicate algebra, build-time index tables and the
query planner), with theorems checking the natural-language specification
against the code.

Machine integers (`isize`, `u32`, `i64`, `usize`) are modelled as `Int` or
`Nat`: within the library's documented domain none of the modelled
arithmetic overflows, except where a cast is itself under scrutiny (the
`u64::MAX as isize` cast in the `SystemTime` conversion, which is modelled
explicitly as a wrapping cast).  Note that `/` and `%` on `Int` in this file
are Euclidean division and remainder, which agree with Rust's
`div_euclid`/`rem_euclid` on signed values and with plain `/`/`%` on the
unsigned (`u32`, `usize`) values appearing below, all of which are
nonnegative.
-/

namespace Holidays

/-! ## Calendar (src/date.rs)

`Date` is a signed day count since 1970-01-01, stored as `isize`; we model
the count as `Int`.  `Date::from_ymd` and `Date::ymd` are the era-based
conversions. -/

/-- `Date::from_ymd` from src/date.rs: day count since 1970-01-01. -/
def Date.from_ymd (year month day : Int) : Int :=
  let y := if month ≤ 2 then year - 1 else year
  let era := y / 400
  let year_of_era := y - era * 400
  let day_of_year := (153 * ((month + 9) % 12) + 2) / 5 + day - 1
  let day_of_era := year_of_era * 365 + year_of_era / 4 - year_of_era / 100 + day_of_year
  era * 146097 + day_of_era - 719468

/-- `Date::from_year` from src/date.rs. -/
def Date.from_year (year : Int) : Int := Date.from_ymd year 1 1

/-- `Date::ymd` from src/date.rs: inverse conversion to (year, month, day).
The source divides by `DAYS_IN_4_YEARS - 1 = 1460`, `DAYS_IN_100_YEARS - 1 =
36523` and `DAYS_IN_400_YEARS - 1 = 146096`. -/
def Date.ymd (days : Int) : Int × Int × Int :=
  let julian_days := days + 719468
  let era := julian_days / 146097
  let day_of_era := julian_days % 146097
  let leap_years := day_of_era / 1460
  let centuries := day_of_era / 36523
  let last_day := day_of_era / 146096
  let year_of_era := (day_of_era - leap_years + centuries - last_day) / 365
  let year := year_of_era + era * 400
  let day_of_year := day_of_era - (365 * year_of_era + year_of_era / 4 - year_of_era / 100)
  let month_shifted := (5 * day_of_year + 2) / 153
  let day := day_of_year - (153 * month_shifted + 2) / 5 + 1
  let month := if month_shifted < 10 then month_shifted + 3 else month_shifted - 9
  if month ≤ 2 then (year + 1, month, day) else (year, month, day)

/-- Proleptic Gregorian leap year (spec-side validity notion). -/
def IsLeap (y : Int) : Prop :=
  y % 4 = 0 ∧ (¬ y % 100 = 0 ∨ y % 400 = 0)

instance (y : Int) : Decidable (IsLeap y) := by
  unfold IsLeap; exact inferInstance

/-- Number of days of month `m` of year `y` (spec-side validity notion). -/
def daysInMonth (y m : Int) : Int :=
  if m = 2 then (if IsLeap y then 29 else 28)
  else if m = 4 ∨ m = 6 ∨ m = 9 ∨ m = 11 then 30
  else 31

/-- A valid proleptic Gregorian calendar date (spec-side validity notion):
the domain on which the spec asserts the conversions are mutual inverses. -/
def ValidDate (y m d : Int) : Prop :=
  1 ≤ m ∧ m ≤ 12 ∧ 1 ≤ d ∧ d ≤ daysInMonth y m

instance (y m d : Int) : Decidable (ValidDate y m d) := by
  unfold ValidDate; exact inferInstance

/-! ### Round-trip proof infrastructure

The inverse computation of the year-of-era inside `Date.ymd` is isolated as
`gApprox`; `fStart yoe` is the day-of-era on which March-based year `yoe`
starts, and `leapBit yoe` is 1 exactly when that March-based year has 366
days (i.e. when civil year `yoe + 1` of the era is a leap year). -/

/-- The year-of-era recovery expression inside `Date.ymd` (proof helper). -/
def gApprox (doe : Int) : Int := (doe - doe/1460 + doe/36523 - doe/146096) / 365

/-- First day-of-era of March-based year `yoe` (proof helper). -/
def fStart (yoe : Int) : Int := yoe * 365 + yoe/4 - yoe/100

/-- 1 when the March-based year `yoe` of an era contains a leap day. -/
def leapBit (yoe : Int) : Int :=
  if (yoe+1) % 4 = 0 ∧ (¬ (yoe+1) % 100 = 0 ∨ (yoe+1) % 400 = 0) then 1 else 0

/-- Exhaustive check that `gApprox` recovers the year-of-era at both ends of
every March-based year of an era. -/
def yoeEndpointCheck : Bool :=
  (List.range 400).all fun r =>
    decide (gApprox (fStart r) = r) && decide (gApprox (fStart r + 364 + leapBit r) = r)

/-! ## Date predicates (src/query.rs, `DateQuery`) -/

/-- `DateQuery` from src/query.rs. -/
inductive DateQuery where
  | Exact (date : Int)
  | FromDate (date : Int)
  | ToDate (date : Int)
  | DateRange (a b : Int)
deriving DecidableEq

/-- `DateQuery::EMPTY` from src/query.rs. -/
def DateQuery.EMPTY : DateQuery := .DateRange 0 0

/-- `DateQuery::is_empty` from src/query.rs. -/
def DateQuery.is_empty : DateQuery → Bool
  | .DateRange a b => a ≥ b
  | _ => false

/-- `impl BitAnd for DateQuery` from src/query.rs, with the source's match
arms (including their or-patterns) in source order. -/
def DateQuery.bitAnd : DateQuery → DateQuery → DateQuery
  | .FromDate a, .FromDate b => .FromDate (max a b)
  | .ToDate a, .ToDate b => .ToDate (min a b)
  | .Exact a, .Exact b => if a ≠ b then EMPTY else .Exact a
  | .FromDate a, .Exact b | .Exact b, .FromDate a =>
      if a > b then EMPTY else .Exact b
  | .ToDate a, .Exact b | .Exact b, .ToDate a =>
      if b ≥ a then EMPTY else .Exact b
  | .Exact a, .DateRange bf bt | .DateRange bf bt, .Exact a =>
      if bf > a ∨ bt ≤ a then EMPTY else .Exact a
  | .FromDate a, .ToDate b | .ToDate b, .FromDate a =>
      if a ≥ b then EMPTY else .DateRange a b
  | .FromDate a, .DateRange bf bt | .DateRange bf bt, .FromDate a =>
      let lo := max a bf
      if lo ≥ bt then EMPTY else .DateRange lo bt
  | .ToDate a, .DateRange bf bt | .DateRange bf bt, .ToDate a =>
      let hi := max a bt
      if hi ≥ bf then EMPTY else .DateRange bf hi
  | .DateRange af a2, .DateRange bf bt =>
      let lo := max af bf
      let hi := min a2 bt
      if hi ≥ lo then EMPTY else .DateRange lo hi

/-- Modelled from the spec: the intended semantics of AND-combining two
half-open ranges is the standard interval intersection, non-empty exactly
when `max(lo) < min(hi)` and the canonical `EMPTY` otherwise. -/
def specRangeIntersection (alo ahi blo bhi : Int) : DateQuery :=
  if max alo blo < min ahi bhi then .DateRange (max alo blo) (min ahi bhi)
  else DateQuery.EMPTY

/-- Range bound of a `std::ops::RangeBounds` endpoint. -/
inductive Bound where
  | included (a : Int)
  | excluded (a : Int)
  | unbounded

/-- `DateQuery::date_range` from src/query.rs, with the source's two
sequential bound matches (and their early returns) exploded into the nine
endpoint combinations; `conv` is the `Into<Date>` conversion of the range's
element type, and an inclusive bound adds one day (`it.0 += 1`). -/
def DateQuery.date_range (start stop : Bound) (conv : Int → Int) : Option DateQuery :=
  match start, stop with
  | .included a, .included b => some (.DateRange (conv a) (conv b + 1))
  | .included a, .excluded b => some (.DateRange (conv a) (conv b))
  | .included a, .unbounded => some (.FromDate (conv a))
  | .excluded a, .included b => some (.DateRange (conv a + 1) (conv b + 1))
  | .excluded a, .excluded b => some (.DateRange (conv a + 1) (conv b))
  | .excluded a, .unbounded => some (.FromDate (conv a + 1))
  | .unbounded, .included b => some (.ToDate (conv b + 1))
  | .unbounded, .excluded b => some (.ToDate (conv b))
  | .unbounded, .unbounded => none

/-! ## CountrySet (src/country.rs)

A country is a dense ordinal (`u16` cast to `usize`); the set is an array of
64-bit words, modelled as a `List Nat` whose elements stand for the `u64`
words.  All source operations only ever set bits below 64 per word. -/

/-- `CountrySet::insert` from src/country.rs. -/
def csInsert (words : List Nat) (c : Nat) : List Nat :=
  words.set (c / 64) (words.getD (c / 64) 0 ||| (1 <<< (c % 64)))

/-- `CountrySet::contains` from src/country.rs. -/
def csContains (words : List Nat) (c : Nat) : Bool :=
  (words.getD (c / 64) 0) >>> (c % 64) &&& 1 == 1

/-- `CountrySet` union (`BitOrAssign`, word-wise `|=`) from src/country.rs. -/
def csOr (a b : List Nat) : List Nat := List.zipWith (· ||| ·) a b

/-- `CountrySet` intersection (`BitAndAssign`, word-wise `&=`) from
src/country.rs. -/
def csAnd (a b : List Nat) : List Nat := List.zipWith (· &&& ·) a b

/-- Output of `CountrySetIter` from src/country.rs: the iterator scans words
and bits in ascending order, yields each set bit index, and terminates at
the first set bit that is `≥ COUNT`. -/
def countryBits (words : List Nat) (count : Nat) : List Nat :=
  ((List.range (64 * words.length)).filter (fun i => csContains words i)).takeWhile
    (· < count)

/-! ## Query (src/query.rs, `Query`) -/

/-- `Query` from src/query.rs: a country bitset and an optional date
predicate. -/
structure Query where
  countries : List Nat
  date_filter : Option DateQuery

/-- The date-filter merge shared verbatim by `Query::and` and
`impl BitAndAssign for Query` in src/query.rs. -/
def mergeDateFilter : Option DateQuery → Option DateQuery → Option DateQuery
  | none, some it => some it
  | some it, none => some it
  | some a, some b => some (a.bitAnd b)
  | none, none => none

/-- `Query::and` from src/query.rs: `self.countries |= other.countries`. -/
def Query.and (a b : Query) : Query :=
  { countries := csOr a.countries b.countries
    date_filter := mergeDateFilter a.date_filter b.date_filter }

/-- `impl BitAndAssign for Query` from src/query.rs:
`self.countries &= rhs.countries`. -/
def Query.bitAndAssign (a b : Query) : Query :=
  { countries := csAnd a.countries b.countries
    date_filter := mergeDateFilter a.date_filter b.date_filter }

/-- `impl BitAnd for Query` from src/query.rs (delegates to `&=`). -/
def Query.bitAnd (a b : Query) : Query := a.bitAndAssign b

/-! ## Build-time index tables (build.rs, `gen_data_tables`)

The builder receives the filtered holiday rows in file order (the generated
`DATA` array lists them verbatim).  A row carries the country ordinal, the
parsed calendar year, the day count (`day_index`) and the name. -/

/-- One row of the builder's holiday input; also one record of the generated
`DATA` array (`code`, `date`, `name`), with the parsed `year` kept alongside
as in the builder's `Date` struct. -/
structure SrcHoliday where
  country : Nat
  year : Int
  date : Int
  name : String
deriving DecidableEq, Inhabited

/-- The builder's `year_lookup` map: `or_insert` keeps, per year, the index
of the first row carrying that year. -/
def yearFirst (hs : List SrcHoliday) (y : Int) : Option Nat :=
  hs.findIdx? (fun h => h.year == y)

/-- `DATA_MIN_YEAR`: least key of `year_lookup` (the builder unwraps the
first entry; the empty-input default 0 is unreachable for it). -/
def dataMinYear : List SrcHoliday → Int
  | [] => 0
  | h :: t => t.foldl (fun a x => min a x.year) h.year

/-- `DATA_MAX_YEAR`: greatest key of `year_lookup`. -/
def dataMaxYear : List SrcHoliday → Int
  | [] => 0
  | h :: t => t.foldl (fun a x => max a x.year) h.year

/-- The integer range `a..b` (half-open) iterated by the builder loops. -/
def intRange (a b : Int) : List Int :=
  (List.range (b - a).toNat).map (fun k => a + k)

/-- The `YEAR_JUMP_TABLE` generation loop body: carry the previous index for
years absent from `year_lookup`. -/
def yjtGo (hs : List SrcHoliday) : Nat → List Int → List Nat
  | _, [] => []
  | idx, y :: ys =>
    let idx' := (yearFirst hs y).getD idx
    idx' :: yjtGo hs idx' ys

/-- `YEAR_JUMP_TABLE` from build.rs: `index = 0; for y in min_year..max_year
{ index = *year_lookup.get(&y).unwrap_or(&index); write index }`. -/
def yearJumpTable (hs : List SrcHoliday) : List Nat :=
  yjtGo hs 0 (intRange (dataMinYear hs) (dataMaxYear hs))

/-- `year_to_index` from src/data.rs.  The source performs
`YEAR_JUMP_TABLE.get_unchecked((year - DATA_MIN_YEAR) as usize)` after the
two bounds checks; the `getD` here models that access only when the index is
in bounds (out of bounds it is undefined behaviour in the source). -/
def year_to_index (hs : List SrcHoliday) (year : Int) : Option Nat :=
  if year < dataMinYear hs then none
  else if year > dataMaxYear hs then none
  else some ((yearJumpTable hs).getD (year - dataMinYear hs).toNat 0)

/-- The builder's `country_lookup` entry for ordinal `c`: the positions of
that country's rows, pushed in ascending row order. -/
def countryPositions (hs : List SrcHoliday) (c : Nat) : List Nat :=
  (List.range hs.length).filter (fun i => (hs.getD i default).country == c)

/-- Least key of `country_lookup` (ordinals of countries that have rows). -/
def dataMinCountry : List SrcHoliday → Nat
  | [] => 0
  | h :: t => t.foldl (fun a x => min a x.country) h.country

/-- Greatest key of `country_lookup`. -/
def dataMaxCountry : List SrcHoliday → Nat
  | [] => 0
  | h :: t => t.foldl (fun a x => max a x.country) h.country

/-- `COUNTRY_JUMP_TABLE` from build.rs: `for ci in min_country..max_country`
emit that ordinal's position list (empty when absent). -/
def countryJumpTable (hs : List SrcHoliday) : List (List Nat) :=
  (List.range (dataMaxCountry hs - dataMinCountry hs)).map
    (fun k => countryPositions hs (dataMinCountry hs + k))

/-- The per-country body of `BoundsResult::next` from src/query.rs:
`indices.first()` mapped to the pair of first and last positions (the source
then reads `DATA` at both).  The `getD` models the `COUNTRY_JUMP_TABLE[c]`
indexing only when `c` is in bounds (out of bounds the source panics). -/
def boundsEntry (hs : List SrcHoliday) (c : Nat) : Option (Nat × Nat) :=
  match (countryJumpTable hs).getD c [] with
  | [] => none
  | x :: xs => some (x, (x :: xs).getLastD x)

/-! ## Runtime date lookup (src/data.rs) -/

/-- The core `slice::binary_search_by` loop (Rust standard library): `left`,
`right` and midpoint probing; `inl mid` is `Ok(mid)` (an exact hit, not
necessarily the first), `inr left` is `Err(left)` (the insertion point).
The fuel argument only serves structural termination: one unit per loop
iteration, and `right - left` shrinks each iteration, so `xs.length + 1`
fuel is never exhausted for the in-range calls made below. -/
def bsLoop (xs : List Int) (target : Int) : Nat → Nat → Nat → Nat ⊕ Nat
  | 0, left, _ => Sum.inr left
  | fuel + 1, left, right =>
    if left < right then
      let mid := left + (right - left) / 2
      let x := xs.getD mid 0
      if x < target then bsLoop xs target fuel (mid + 1) right
      else if target < x then bsLoop xs target fuel left mid
      else Sum.inl mid
    else Sum.inr left

/-- `binary_search_by` on a whole slice, comparing record dates to `target`. -/
def binarySearch (xs : List Int) (target : Int) : Nat ⊕ Nat :=
  bsLoop xs target (xs.length + 1) 0 xs.length

/-- `date_to_index` from src/data.rs: resolve the year slice, then binary
search inside it, `unwrap_or_else(|i| i)` collapsing hit and insertion
point. -/
def date_to_index (hs : List SrcHoliday) (date : Int) : Option Nat :=
  match year_to_index hs (Date.ymd date).1 with
  | none => none
  | some start =>
    let stop := (year_to_index hs ((Date.ymd date).1 + 1)).getD hs.length
    let slice := ((hs.drop start).take (stop - start)).map (fun h => h.date)
    let index := match binarySearch slice date with
      | .inl i => i
      | .inr i => i
    if start + index ≥ hs.length then none else some (start + index)

/-- `country_date_to_holiday` from src/data.rs: the `DATA_MAP` perfect-hash
probe, modelled as the (unique, per the builder's key set) position with the
given country and date. -/
def country_date_to_holiday (hs : List SrcHoliday) (c : Nat) (d : Int) : Option Nat :=
  (List.range hs.length).find?
    (fun i => (hs.getD i default).country == c && (hs.getD i default).date == d)

/-- `DateQuery::as_data_range` from src/query.rs, as a `(start, stop)`
position pair. -/
def DateQuery.as_data_range (hs : List SrcHoliday) : DateQuery → Nat × Nat
  | .DateRange f t =>
    match date_to_index hs f, date_to_index hs t with
    | some a, some b => (a, b)
    | some a, none => (a, hs.length)
    | none, some b => (0, b)
    | none, none => (0, 0)
  | .FromDate d =>
    match date_to_index hs d with
    | some it => (it, hs.length)
    | none => (hs.length, hs.length)
  | .ToDate d =>
    match date_to_index hs d with
    | some it => (0, it)
    | none => (0, 0)
  | .Exact d =>
    match date_to_index hs d with
    | none => (hs.length, hs.length)
    | some fr =>
      match date_to_index hs (d + 1) with
      | some t => (fr, t)
      | none => (fr, hs.length)

/-! ## SystemTime conversion (src/date.rs, `TryFrom<Date> for SystemTime`)

`SystemTime` is modelled as the signed number of seconds from the Unix
epoch; `none` is `Err(DateConversionError)`.  The `u64::MAX as isize` cast
and the `relative as u64` cast wrap, and `/` on `isize` truncates toward
zero (`Int.tdiv`), exactly as in Rust. -/

/-- Wrapping cast of a `u64` value to 64-bit `isize`. -/
def castU64ToIsize (n : Nat) : Int :=
  if n < 2 ^ 63 then (n : Int) else (n : Int) - 2 ^ 64

/-- Wrapping cast of a 64-bit `isize` value to `u64`. -/
def castIsizeToU64 (i : Int) : Nat := (i % 2 ^ 64).toNat

/-- `TryFrom<Date> for std::time::SystemTime` from src/date.rs. -/
def tryFromDateSystemTime (value : Int) : Option Int :=
  let relative := value - 719468
  if relative ≥ 0 then
    if relative > Int.tdiv (castU64ToIsize (2 ^ 64 - 1)) 86400 then none
    else some ((castIsizeToU64 relative * 86400) % 2 ^ 64 : Nat)
  else
    if relative < Int.tdiv (castU64ToIsize (2 ^ 64 - 1)) 86400 then none
    else some (-((castIsizeToU64 relative * 86400) % 2 ^ 64 : Nat))

/-! ## Merged-holiday iteration (src/country.rs, `CountrySetHolidayIter`)

The `BinaryHeap<Reverse<(usize, usize)>>` is modelled as the list of its
elements; popping returns the lexicographically least `(position, cursor)`
pair, which is what `pop` on the reversed max-heap yields. -/

/-- Lexicographic order of `(position, cursor)` heap entries. -/
def pairLe (x y : Nat × Nat) : Bool :=
  x.1 < y.1 || (x.1 == y.1 && x.2 ≤ y.2)

/-- Pop the least element of the modelled heap. -/
def popMin : List (Nat × Nat) → Option ((Nat × Nat) × List (Nat × Nat))
  | [] => none
  | x :: xs =>
    match popMin xs with
    | none => some (x, [])
    | some (m, rest) => if pairLe x m then some (x, xs) else some (m, x :: rest)

/-- One `next()` step of `CountrySetHolidayIter`: pop the minimum, replenish
that cursor, yield the position. -/
def mergeNext (heap : List (Nat × Nat)) (cursors : List (List Nat)) :
    Option (Nat × List (Nat × Nat) × List (List Nat)) :=
  match popMin heap with
  | none => none
  | some ((v, i), rest) =>
    match cursors.getD i [] with
    | [] => some (v, rest, cursors)
    | x :: xs => some (v, (x, i) :: rest, cursors.set i xs)

/-- Iterate `CountrySetHolidayIter` to completion (the fuel bounds the
number of `next()` calls; the heap empties in finitely many steps). -/
def runMerge : Nat → List (Nat × Nat) → List (List Nat) → List Nat
  | 0, _, _ => []
  | fuel + 1, heap, cursors =>
    match mergeNext heap cursors with
    | none => []
    | some (v, h', c') => v :: runMerge fuel h' c'

/-- Seed the heap with `(first_position, cursor_id)` for every non-empty
cursor, as `CountrySet::holidays` does. -/
def seedHeapAux : Nat → List (List Nat) → List (Nat × Nat)
  | _, [] => []
  | i, [] :: ls => seedHeapAux (i + 1) ls
  | i, (v :: _) :: ls => (v, i) :: seedHeapAux (i + 1) ls

/-- The per-member-country cursors opened by `CountrySet::holidays`
(`self.iter().map(|i| COUNTRY_JUMP_TABLE[i as usize].iter())`); `table` is
the `COUNTRY_JUMP_TABLE` lookup. -/
def countrySetCursors (words : List Nat) (count : Nat) (table : Nat → List Nat) :
    List (List Nat) :=
  (countryBits words count).map table

/-- The heap seeded by `CountrySet::holidays`. -/
def countrySetHolidaysHeap (words : List Nat) (count : Nat)
    (table : Nat → List Nat) : List (Nat × Nat) :=
  seedHeapAux 0 (countrySetCursors words count table)

/-- The cursors after seeding consumed each first element. -/
def countrySetHolidaysTails (words : List Nat) (count : Nat)
    (table : Nat → List Nat) : List (List Nat) :=
  (countrySetCursors words count table).map (List.drop 1)

/-- The position sequence produced by the merged-holiday iteration. -/
def runHolidays (fuel : Nat) (words : List Nat) (count : Nat)
    (table : Nat → List Nat) : List Nat :=
  runMerge fuel (countrySetHolidaysHeap words count table)
    (countrySetHolidaysTails words count table)

/-! ## Planner (src/query.rs, `impl IntoIterator for Query` and `Iter`) -/

/-- `IterImpl` from src/query.rs: the four iteration strategies. -/
inductive IterImpl where
  | empty
  | exact (inner : List Nat) (date : Int)
  | dateRange (start stop : Nat) (countries : List Nat)
  | noDate (heap : List (Nat × Nat)) (cursors : List (List Nat))
deriving DecidableEq

/-- `Query::into_iter` from src/query.rs: strategy selection on the shape of
the date predicate. -/
def Query.intoIterImpl (hs : List SrcHoliday) (count : Nat)
    (table : Nat → List Nat) (q : Query) : IterImpl :=
  match q.date_filter with
  | some dq =>
    if dq.is_empty then .empty
    else
      match dq with
      | .Exact date => .exact (countryBits q.countries count) date
      | _ => .dateRange (dq.as_data_range hs).1 (dq.as_data_range hs).2 q.countries
  | none =>
    .noDate (countrySetHolidaysHeap q.countries count table)
      (countrySetHolidaysTails q.countries count table)

/-- `Iter::next` from src/query.rs, iterated to completion: the positions
yielded by each strategy. -/
def runIterImpl (hs : List SrcHoliday) (fuel : Nat) : IterImpl → List Nat
  | .empty => []
  | .exact inner date => inner.filterMap (fun c => country_date_to_holiday hs c date)
  | .dateRange start stop countries =>
    (List.range' start (stop - start)).filter
      (fun i => csContains countries (hs.getD i default).country)
  | .noDate heap cursors => runMerge fuel heap cursors

/-! ### Concrete datasets used as counter-models -/

/-- Three rows in consecutive years 2000..2002 (dates 2000-01-05, 2001-01-01,
2002-01-01). -/
def hsC4 : List SrcHoliday :=
  [⟨0, 2000, 10961, "a"⟩, ⟨0, 2001, 11323, "b"⟩, ⟨0, 2002, 11688, "c"⟩]

/-- Two rows of two enabled countries with ordinals 0 and 2. -/
def hsC9 : List SrcHoliday :=
  [⟨0, 2000, 10961, "a"⟩, ⟨2, 2000, 10962, "b"⟩]

/-- Four rows: two distinct countries on 2000-01-05 (equal dates at
positions 0 and 1), then one row each in 2001 and 2002. -/
def hsC6 : List SrcHoliday :=
  [⟨0, 2000, 10961, "A"⟩, ⟨1, 2000, 10961, "B"⟩,
   ⟨0, 2001, 11323, "C"⟩, ⟨0, 2002, 11688, "D"⟩]

/-! ### Calendar round-trip lemmas -/

theorem leapBit_cases (yoe : Int) : leapBit yoe = 0 ∨ leapBit yoe = 1 := by
  unfold leapBit; split_ifs <;> simp

set_option maxRecDepth 10000 in
theorem yoeEndpointCheck_true : yoeEndpointCheck = true := by decide

theorem gApprox_endpoints (yoe : Int) (h0 : 0 ≤ yoe) (h1 : yoe < 400) :
    gApprox (fStart yoe) = yoe ∧ gApprox (fStart yoe + 364 + leapBit yoe) = yoe := by
  have hc := yoeEndpointCheck_true
  unfold yoeEndpointCheck at hc
  rw [List.all_eq_true] at hc
  have hmem : yoe.toNat ∈ List.range 400 := by rw [List.mem_range]; omega
  have h := hc _ hmem
  rw [Bool.and_eq_true, decide_eq_true_eq, decide_eq_true_eq,
    Int.toNat_of_nonneg h0] at h
  exact h

/-- One step of monotonicity for the numerator of `gApprox` within an era:
the only decrement candidate would need `n+1` divisible by both `1460` and
`146096`, which cannot happen for `n + 1 ≤ 146096` except at the upper end,
checked concretely. -/
theorem gApprox_num_step (n : Int) (h1 : 0 ≤ n) (h2 : n + 1 ≤ 146096) :
    n - n/1460 + n/36523 - n/146096 ≤
      (n+1) - (n+1)/1460 + (n+1)/36523 - (n+1)/146096 := by
  rcases eq_or_lt_of_le h2 with heq | hlt
  · have hn : n = 146095 := by omega
    subst hn; decide
  · have hz : (n+1) / 146096 = 0 := by omega
    have hz2 : n / 146096 = 0 := by omega
    omega

theorem gApprox_mono (a b : Int) (h0 : 0 ≤ a) (hab : a ≤ b) (hb : b ≤ 146096) :
    gApprox a ≤ gApprox b := by
  have key : ∀ n, a ≤ n → (n ≤ 146096 → gApprox a ≤ gApprox n) := by
    refine Int.le_induction ?_ ?_
    · intro _; exact le_refl _
    · intro n hn ih hn1
      have hstep := gApprox_num_step n (le_trans h0 hn) hn1
      have hdiv : gApprox n ≤ gApprox (n+1) := by
        unfold gApprox
        exact Int.ediv_le_ediv (by norm_num) hstep
      exact le_trans (ih (by omega)) hdiv
  exact key b hab hb

/-- `gApprox` recovers the year-of-era on the whole span of each March-based
year. -/
theorem gApprox_eq (yoe doy : Int) (h0 : 0 ≤ yoe) (h1 : yoe < 400)
    (h2 : 0 ≤ doy) (h3 : doy ≤ 364 + leapBit yoe) :
    gApprox (fStart yoe + doy) = yoe := by
  obtain ⟨e1, e2⟩ := gApprox_endpoints yoe h0 h1
  have hlb := leapBit_cases yoe
  have hfs0 : 0 ≤ fStart yoe := by unfold fStart; omega
  have hfshi : fStart yoe + 364 + leapBit yoe ≤ 146096 := by unfold fStart; omega
  have hm1 : gApprox (fStart yoe) ≤ gApprox (fStart yoe + doy) :=
    gApprox_mono _ _ hfs0 (by omega) (by omega)
  have hm2 : gApprox (fStart yoe + doy) ≤ gApprox (fStart yoe + 364 + leapBit yoe) :=
    gApprox_mono _ _ (by omega) (by omega) hfshi
  omega

/-- Month/day recovery of the March-based month encoding, for valid
month lengths (March-based month `11` is February). -/
theorem month_recovery (mp d : Int) (h1 : 0 ≤ mp) (h2 : mp < 12) (h3 : 1 ≤ d)
    (h31 : d ≤ 31)
    (h30 : mp = 1 ∨ mp = 3 ∨ mp = 6 ∨ mp = 8 → d ≤ 30)
    (hfeb : mp = 11 → d ≤ 29) :
    (5*((153*mp+2)/5 + d - 1) + 2)/153 = mp := by
  interval_cases mp <;> omega

/-- Decomposition of `Date.from_ymd` into its intermediate quantities. -/
theorem from_ymd_decomp (y m d Y era yoe doy : Int)
    (hY : Y = if m ≤ 2 then y - 1 else y)
    (hera : era = Y / 400)
    (hyoe : yoe = Y - era * 400)
    (hdoy : doy = (153 * ((m + 9) % 12) + 2) / 5 + d - 1) :
    Date.from_ymd y m d = era * 146097 + (yoe * 365 + yoe/4 - yoe/100 + doy) - 719468 := by
  subst hdoy hyoe hera hY
  rfl

/-- Decomposition of `Date.ymd` into its intermediate quantities. -/
theorem ymd_decomp (n era doe yoe doy mp day month : Int)
    (h1 : era = (n + 719468) / 146097)
    (h2 : doe = (n + 719468) % 146097)
    (h3 : yoe = (doe - doe/1460 + doe/36523 - doe/146096) / 365)
    (h4 : doy = doe - (365 * yoe + yoe/4 - yoe/100))
    (h5 : mp = (5 * doy + 2) / 153)
    (h6 : day = doy - (153 * mp + 2) / 5 + 1)
    (h7 : month = if mp < 10 then mp + 3 else mp - 9) :
    Date.ymd n =
      if month ≤ 2 then (yoe + era * 400 + 1, month, day)
      else (yoe + era * 400, month, day) := by
  subst h7 h6 h5 h4 h3 h2 h1
  rfl

/-- Leap-year status of a civil year depends only on its position in the
400-year era. -/
theorem isLeap_of_era (y era yoe : Int) (h : y = era * 400 + yoe + 1) :
    (if IsLeap y then (1:Int) else 0) = leapBit yoe := by
  unfold IsLeap leapBit
  split_ifs <;> omega

/-- The calendar round trip on valid dates. -/
theorem ymd_from_ymd (y m d : Int) (h : ValidDate y m d) :
    Date.ymd (Date.from_ymd y m d) = (y, m, d) := by
  obtain ⟨h1, h2, h3, h4⟩ := h
  have h31 : d ≤ 31 := by
    unfold daysInMonth at h4; split_ifs at h4 <;> omega
  have h30 : m = 4 ∨ m = 6 ∨ m = 9 ∨ m = 11 → d ≤ 30 := by
    intro hm; unfold daysInMonth at h4; split_ifs at h4 <;> omega
  have hfeb : m = 2 → d ≤ 28 + (if IsLeap y then (1:Int) else 0) := by
    intro hm; unfold daysInMonth at h4; split_ifs at h4 ⊢ <;> omega
  rcases le_or_lt m 2 with hm | hm
  · -- January or February: the March-based year is y - 1
    set Y := y - 1 with hYdef
    set era := Y / 400 with hera
    set yoe := Y - era * 400 with hyoe
    set doy := (153 * ((m + 9) % 12) + 2) / 5 + d - 1 with hdoy
    have hyoe0 : 0 ≤ yoe := by omega
    have hyoe400 : yoe < 400 := by omega
    have hYsum : Y = era * 400 + yoe := by omega
    have hmp : (m + 9) % 12 = m + 9 := by omega
    have hleap := isLeap_of_era y era yoe (by omega)
    have hdoy0 : 0 ≤ doy := by rw [hdoy, hmp]; omega
    have hdoyhi : doy ≤ 364 + leapBit yoe := by
      rw [hdoy, hmp]
      have hlb := leapBit_cases yoe
      rcases eq_or_lt_of_le hm with hm2 | hm1
      · have := hfeb hm2; omega
      · omega
    have hfe := from_ymd_decomp y m d Y era yoe doy (by rw [if_pos hm]) hera hyoe hdoy
    set n := Date.from_ymd y m d with hn
    set doe := yoe * 365 + yoe/4 - yoe/100 + doy with hdoe
    have hdoe0 : 0 ≤ doe := by rw [hdoe]; omega
    have hdoehi : doe < 146097 := by
      have hlb := leapBit_cases yoe
      rw [hdoe]; omega
    have hg : gApprox (fStart yoe + doy) = yoe := gApprox_eq yoe doy hyoe0 hyoe400 hdoy0 hdoyhi
    have hgd : (doe - doe/1460 + doe/36523 - doe/146096) / 365 = yoe := by
      have : fStart yoe + doy = doe := by unfold fStart; omega
      rw [← this]; exact hg
    have hmr : (5 * doy + 2) / 153 = m + 9 := by
      rw [hdoy, hmp]
      refine month_recovery (m + 9) d (by omega) (by omega) h3 h31 (by omega) ?_
      intro hmp11
      have := hfeb (by omega)
      have hlb := leapBit_cases yoe
      omega
    have hy := ymd_decomp n era doe yoe doy (m + 9) d m
      (by omega) (by omega) hgd.symm (by omega)
      hmr.symm (by rw [hdoy, hmp]; omega) (by rw [if_neg (by omega)]; omega)
    rw [hy, if_pos hm]
    have : yoe + era * 400 + 1 = y := by omega
    rw [this]
  · -- March through December: the March-based year is y itself
    set Y := y with hYdef
    set era := Y / 400 with hera
    set yoe := Y - era * 400 with hyoe
    set doy := (153 * ((m + 9) % 12) + 2) / 5 + d - 1 with hdoy
    have hyoe0 : 0 ≤ yoe := by omega
    have hyoe400 : yoe < 400 := by omega
    have hmp : (m + 9) % 12 = m - 3 := by omega
    have hdoy0 : 0 ≤ doy := by rw [hdoy, hmp]; omega
    have hdoyhi : doy ≤ 364 + leapBit yoe := by
      have hlb := leapBit_cases yoe
      rw [hdoy, hmp]; omega
    have hfe := from_ymd_decomp y m d Y era yoe doy (by rw [if_neg (by omega)]) hera hyoe hdoy
    set n := Date.from_ymd y m d with hn
    set doe := yoe * 365 + yoe/4 - yoe/100 + doy with hdoe
    have hdoe0 : 0 ≤ doe := by rw [hdoe]; omega
    have hdoehi : doe < 146097 := by
      have hlb := leapBit_cases yoe
      rw [hdoe]; omega
    have hg : gApprox (fStart yoe + doy) = yoe := gApprox_eq yoe doy hyoe0 hyoe400 hdoy0 hdoyhi
    have hgd : (doe - doe/1460 + doe/36523 - doe/146096) / 365 = yoe := by
      have : fStart yoe + doy = doe := by unfold fStart; omega
      rw [← this]; exact hg
    have hmr : (5 * doy + 2) / 153 = m - 3 := by
      rw [hdoy, hmp]
      refine month_recovery (m - 3) d (by omega) (by omega) h3 h31 ?_ (by omega)
      intro hcap
      exact h30 (by omega)
    have hy := ymd_decomp n era doe yoe doy (m - 3) d m
      (by omega) (by omega) hgd.symm (by omega)
      hmr.symm (by rw [hdoy, hmp]; omega) (by rw [if_pos (by omega)]; omega)
    rw [hy, if_neg (by omega)]
    have : yoe + era * 400 = y := by omega
    rw [this]

/-! ### Bitset lemmas -/

theorem getD_zipWith (f : Nat → Nat → Nat) (hf : f 0 0 = 0) :
    ∀ (a b : List Nat), a.length = b.length → ∀ i : Nat,
      (List.zipWith f a b).getD i 0 = f (a.getD i 0) (b.getD i 0)
  | [], [], _, _ => by simp [hf]
  | [], _ :: _, h, _ => by simp at h
  | _ :: _, [], h, _ => by simp at h
  | x :: xs, y :: ys, h, 0 => by simp
  | x :: xs, y :: ys, h, i + 1 => by
      simpa using getD_zipWith f hf xs ys (by simpa using h) i

theorem csContains_eq_testBit (w : List Nat) (c : Nat) :
    csContains w c = Nat.testBit (w.getD (c / 64) 0) (c % 64) := by
  unfold csContains Nat.testBit
  rcases Nat.mod_two_eq_zero_or_one (w.getD (c / 64) 0 >>> (c % 64)) with h | h <;>
    simp [Nat.and_one_is_mod, Nat.one_and_eq_mod_two, h]

theorem csContains_csOr (a b : List Nat) (hlen : a.length = b.length) (c : Nat) :
    csContains (csOr a b) c = (csContains a c || csContains b c) := by
  unfold csOr
  rw [csContains_eq_testBit, csContains_eq_testBit, csContains_eq_testBit,
    getD_zipWith _ (by simp) a b hlen, Nat.testBit_lor]

theorem csContains_csAnd (a b : List Nat) (hlen : a.length = b.length) (c : Nat) :
    csContains (csAnd a b) c = (csContains a c && csContains b c) := by
  unfold csAnd
  rw [csContains_eq_testBit, csContains_eq_testBit, csContains_eq_testBit,
    getD_zipWith _ (by simp) a b hlen, Nat.testBit_land]

/-! ### Claim theorems: calendar and predicate algebra -/

/-- C3: for all valid calendar dates the conversion to a day count and back
is the identity, and the four concrete day counts from the spec hold. -/
theorem c3_calendar_round_trip :
    (∀ y m d : Int, ValidDate y m d →
        Date.ymd (Date.from_ymd y m d) = (y, m, d)) ∧
    Date.from_ymd 1970 1 1 = 0 ∧
    Date.from_ymd 1970 2 1 = 31 ∧
    Date.from_ymd 2025 6 12 = 20251 ∧
    Date.from_ymd 1602 10 12 = -134125 :=
  ⟨ymd_from_ymd, by decide, by decide, by decide, by decide⟩

/-- Witness for C3 at the concrete date 2025-06-12. -/
theorem c3_calendar_round_trip_witness :
    ValidDate 2025 6 12 ∧ Date.ymd (Date.from_ymd 2025 6 12) = (2025, 6, 12) :=
  ⟨by decide, c3_calendar_round_trip.1 2025 6 12 (by decide)⟩

/-- C1: the AND-combination of two overlapping `DateRange`s, and of a
`ToDate` bound with a `DateRange` it overlaps, returns `EMPTY` although the
intended half-open intersection (`specRangeIntersection`) is non-empty; and
for disjoint ranges the code returns an inverted junk range instead of the
canonical `EMPTY`. -/
theorem c1_range_intersection_inverted :
    DateQuery.bitAnd (.DateRange 0 10) (.DateRange 5 15) = DateQuery.EMPTY ∧
    specRangeIntersection 0 10 5 15 = .DateRange 5 10 ∧
    DateQuery.bitAnd (.DateRange 0 5) (.DateRange 10 15) = .DateRange 10 5 ∧
    specRangeIntersection 0 5 10 15 = DateQuery.EMPTY ∧
    DateQuery.bitAnd (.ToDate 10) (.DateRange 2 5) = DateQuery.EMPTY ∧
    DateQuery.EMPTY ≠ DateQuery.DateRange 2 5 := by
  refine ⟨rfl, by decide, rfl, by decide, rfl, by decide⟩

/-- C2 counterexample: with country 0 in one query and country 1 in the
other, the `&`/`&=` operators do not union the country predicates. -/
theorem c2_operators_not_union :
    ¬ ((Query.bitAnd (Query.mk [1] none) (Query.mk [2] none)).countries =
        csOr [1] [2]) ∧
    ¬ ((Query.bitAndAssign (Query.mk [1] none) (Query.mk [2] none)).countries =
        csOr [1] [2]) := by
  decide

/-- C2 (amended): `Query::and` unions the country predicates, while the
`BitAnd`/`BitAndAssign` operators intersect them; all three merge the date
predicates identically. -/
theorem c2_and_unions_operators_intersect (a b : Query) (c : Nat)
    (hlen : a.countries.length = b.countries.length) :
    csContains (Query.and a b).countries c
        = (csContains a.countries c || csContains b.countries c) ∧
    csContains (Query.bitAndAssign a b).countries c
        = (csContains a.countries c && csContains b.countries c) ∧
    csContains (Query.bitAnd a b).countries c
        = (csContains a.countries c && csContains b.countries c) ∧
    (Query.and a b).date_filter = mergeDateFilter a.date_filter b.date_filter ∧
    (Query.bitAnd a b).date_filter = mergeDateFilter a.date_filter b.date_filter :=
  ⟨csContains_csOr _ _ hlen c, csContains_csAnd _ _ hlen c,
    csContains_csAnd _ _ hlen c, rfl, rfl⟩

/-- Witness for C2's amended theorem at concrete one-word bitsets. -/
theorem c2_and_unions_operators_intersect_witness :
    (Query.mk [1] none).countries.length = (Query.mk [2] none).countries.length ∧
    csContains (Query.and (Query.mk [1] none) (Query.mk [2] none)).countries 0
      = (csContains [1] 0 || csContains [2] 0) :=
  ⟨rfl, (c2_and_unions_operators_intersect (Query.mk [1] none) (Query.mk [2] none)
    0 rfl).1⟩

/-- C10: an `isize` date bound denotes January 1 of that year, and the
inclusive year range `y1..=y2` is planned as the half-open day interval
from January 1 of `y1` to January 2 of `y2`. -/
theorem c10_inclusive_year_range :
    (∀ y : Int, Date.from_year y = Date.from_ymd y 1 1) ∧
    ∀ y1 y2 : Int, y1 ≤ y2 →
      DateQuery.date_range (.included y1) (.included y2) Date.from_year =
        some (.DateRange (Date.from_ymd y1 1 1) (Date.from_ymd y2 1 2)) := by
  refine ⟨fun _ => rfl, fun y1 y2 _ => ?_⟩
  have h12 : Date.from_ymd y2 1 2 = Date.from_ymd y2 1 1 + 1 := by
    rw [from_ymd_decomp y2 1 2 (y2 - 1) ((y2-1)/400) ((y2-1) - (y2-1)/400 * 400)
        ((153 * ((1 + 9) % 12) + 2) / 5 + 2 - 1) (by norm_num) rfl rfl rfl,
      from_ymd_decomp y2 1 1 (y2 - 1) ((y2-1)/400) ((y2-1) - (y2-1)/400 * 400)
        ((153 * ((1 + 9) % 12) + 2) / 5 + 1 - 1) (by norm_num) rfl rfl rfl]
    omega
  rw [h12]
  rfl

/-- Witness for C10 at the year range `2025..=2026`. -/
theorem c10_inclusive_year_range_witness :
    (2025 : Int) ≤ 2026 ∧
    DateQuery.date_range (.included 2025) (.included 2026) Date.from_year =
      some (.DateRange (Date.from_ymd 2025 1 1) (Date.from_ymd 2026 1 2)) :=
  ⟨by norm_num, c10_inclusive_year_range.2 2025 2026 (by norm_num)⟩

/-! ### Claim theorems: index tables and lookups -/

/-- C4: the `YEAR_JUMP_TABLE` generation loop runs over
`min_year..max_year` exclusive, so for a dataset with years 2000..2002 the
table has only 2 entries; the year 2002 passes both bounds checks of
`year_to_index` yet its unchecked access index `(2002 - 2000) = 2` is out of
bounds for the table. -/
theorem c4_year_table_misses_max_year :
    dataMinYear hsC4 = 2000 ∧ dataMaxYear hsC4 = 2002 ∧
    ¬ ((2002 : Int) < dataMinYear hsC4) ∧ ¬ ((2002 : Int) > dataMaxYear hsC4) ∧
    yearJumpTable hsC4 = [0, 1] ∧
    ¬ (((2002 : Int) - dataMinYear hsC4).toNat < (yearJumpTable hsC4).length) := by
  decide

/-- C5: converting the in-range date `Date(0)` (1970-01-01, the epoch
itself) to `SystemTime` fails, and in fact the conversion succeeds only for
the single day count 719468: the code subtracts `UNIX_EPOCH_DAY` from a
value that is already epoch-relative, and compares against
`u64::MAX as isize / SECONDS_IN_DAY`, which is `-1 / 86400 = 0`. -/
theorem c5_system_time_conversion_broken :
    tryFromDateSystemTime 0 = none ∧
    ∀ d : Int, (tryFromDateSystemTime d).isSome = (d == 719468) := by
  constructor
  · decide
  · intro d
    have hc : Int.tdiv (castU64ToIsize (2 ^ 64 - 1)) 86400 = 0 := by decide
    simp only [tryFromDateSystemTime, hc]
    split_ifs with h1 h2 h3 <;> simp <;> omega

/-- C6: on a dataset whose first year slice holds two records with equal
dates, `date_to_index` of that date returns position 1, but the record at
position 0 has the same (not strictly smaller) date: the Rust
`binary_search` lands mid-run, not at the lower bound. -/
theorem c6_binary_search_not_lower_bound :
    date_to_index hsC6 10961 = some 1 ∧
    (hsC6.getD 0 default).date = 10961 ∧
    ¬ ((hsC6.getD 0 default).date < 10961) := by
  decide

/-! ### Merge iterator lemmas -/

theorem pairLe_le {x m : Nat × Nat} (h : pairLe x m = true) : x.1 ≤ m.1 := by
  unfold pairLe at h
  simp only [Bool.or_eq_true, decide_eq_true_eq, Bool.and_eq_true, beq_iff_eq] at h
  omega

theorem pairLe_not_le {x m : Nat × Nat} (h : ¬ pairLe x m = true) : m.1 ≤ x.1 := by
  unfold pairLe at h
  simp only [Bool.or_eq_true, decide_eq_true_eq, Bool.and_eq_true, beq_iff_eq] at h
  omega

theorem popMin_spec : ∀ (l : List (Nat × Nat)) (m : Nat × Nat) (rest : List (Nat × Nat)),
    popMin l = some (m, rest) →
    m ∈ l ∧ (∀ x ∈ rest, x ∈ l) ∧ (∀ x ∈ l, m.1 ≤ x.1) := by
  intro l
  induction l with
  | nil => intro m rest h; simp [popMin] at h
  | cons x xs ih =>
    intro m rest h
    rcases hp : popMin xs with _ | ⟨m', rest'⟩
    · have hxs : xs = [] := by
        cases xs with
        | nil => rfl
        | cons y ys =>
          exfalso
          rcases hpy : popMin ys with _ | ⟨my, resty⟩
          · simp [popMin, hpy] at hp
          · simp only [popMin, hpy] at hp
            split at hp <;> simp at hp
      subst hxs
      simp [popMin] at h
      obtain ⟨rfl, rfl⟩ := h
      exact ⟨by simp, by simp, by simp⟩
    · obtain ⟨hmem', hsub', hmin'⟩ := ih m' rest' hp
      simp only [popMin, hp] at h
      by_cases hle : pairLe x m' = true
      · rw [if_pos hle] at h
        obtain ⟨rfl, rfl⟩ := by simpa using h
        refine ⟨by simp, fun z hz => by simp [hz], ?_⟩
        intro z hz
        rcases List.mem_cons.1 hz with rfl | hz'
        · exact le_refl _
        · exact le_trans (pairLe_le hle) (hmin' z hz')
      · rw [if_neg hle] at h
        obtain ⟨rfl, rfl⟩ := by simpa using h
        refine ⟨by simp [hmem'], ?_, ?_⟩
        · intro z hz
          rcases List.mem_cons.1 hz with rfl | hz'
          · simp
          · simp [hsub' z hz']
        · intro z hz
          rcases List.mem_cons.1 hz with rfl | hz'
          · exact pairLe_not_le hle
          · exact hmin' z hz'

theorem getD_set_eq (l : List (List Nat)) (i : Nat) (a : List Nat)
    (h : i < l.length) : (l.set i a).getD i [] = a := by
  simp [List.getD_eq_getElem?_getD, List.getElem?_set, h]

theorem getD_set_ne (l : List (List Nat)) (i j : Nat) (a : List Nat)
    (h : i ≠ j) : (l.set i a).getD j [] = l.getD j [] := by
  simp [List.getD_eq_getElem?_getD, List.getElem?_set_ne h]

theorem getD_mem_of_ne_nil (l : List (List Nat)) (i : Nat)
    (h : l.getD i [] ≠ []) : l.getD i [] ∈ l := by
  by_cases hi : i < l.length
  · rw [List.getD_eq_getElem?_getD, List.getElem?_eq_getElem hi]
    exact List.getElem_mem hi
  · exfalso
    apply h
    rw [List.getD_eq_getElem?_getD, List.getElem?_eq_none (by omega)]
    rfl

theorem getD_lt_of_ne_nil (l : List (List Nat)) (i : Nat)
    (h : l.getD i [] ≠ []) : i < l.length := by
  by_contra hi
  apply h
  rw [List.getD_eq_getElem?_getD, List.getElem?_eq_none (by omega)]
  rfl

theorem getD_map_drop (l : List (List Nat)) (i : Nat) :
    (l.map (List.drop 1)).getD i [] = (l.getD i []).drop 1 := by
  simp only [List.getD_eq_getElem?_getD, List.getElem?_map]
  cases l[i]? <;> simp

theorem runMerge_nil_heap (fuel : Nat) (cursors : List (List Nat)) :
    runMerge fuel [] cursors = [] := by
  cases fuel <;> simp [runMerge, mergeNext, popMin]

/-- The k-way merge invariant: if every heap entry is a lower bound for its
cursor's remaining positions, every cursor is sorted, and `b` bounds the
heap from below, then the output is a sorted (non-decreasing) sequence
bounded below by `b`. -/
theorem runMerge_sorted : ∀ (fuel : Nat) (heap : List (Nat × Nat))
    (cursors : List (List Nat)) (b : Nat)
    (_ : ∀ x ∈ heap, b ≤ x.1)
    (_ : ∀ x ∈ heap, ∀ p ∈ cursors.getD x.2 [], x.1 ≤ p)
    (_ : ∀ l ∈ cursors, List.Pairwise (· ≤ ·) l),
    List.Chain' (· ≤ ·) (runMerge fuel heap cursors) ∧
      ∀ p ∈ runMerge fuel heap cursors, b ≤ p := by
  intro fuel
  induction fuel with
  | zero =>
    intro heap cursors b _ _ _
    simp [runMerge]
  | succ fuel ih =>
    intro heap cursors b hb hinv hpw
    rcases hpop : popMin heap with _ | ⟨⟨v, i⟩, rest⟩
    · have hmn : mergeNext heap cursors = none := by simp [mergeNext, hpop]
      simp [runMerge, hmn]
    · obtain ⟨hm_mem, hrest_sub, hmin⟩ := popMin_spec heap (v, i) rest hpop
      have hbv : b ≤ v := hb _ hm_mem
      rcases hcur : cursors.getD i [] with _ | ⟨x, xs⟩
      · have hmn : mergeNext heap cursors = some (v, rest, cursors) := by
          simp only [mergeNext, hpop, hcur]
        obtain ⟨ihc, ihb⟩ := ih rest cursors v
          (fun y hy => hmin y (hrest_sub y hy))
          (fun y hy p hp => hinv y (hrest_sub y hy) p hp) hpw
        have hout : runMerge (fuel + 1) heap cursors = v :: runMerge fuel rest cursors := by
          simp [runMerge, hmn]
        rw [hout]
        constructor
        · rw [List.chain'_cons']
          exact ⟨fun y hy => ihb y (List.mem_of_mem_head? hy), ihc⟩
        · intro p hp
          rcases List.mem_cons.1 hp with rfl | hp'
          · exact hbv
          · exact le_trans hbv (ihb p hp')
      · have hmn : mergeNext heap cursors =
            some (v, (x, i) :: rest, cursors.set i xs) := by
          simp only [mergeNext, hpop, hcur]
        have hi_len : i < cursors.length :=
          getD_lt_of_ne_nil cursors i (by rw [hcur]; simp)
        have hpw_i : List.Pairwise (· ≤ ·) (x :: xs) := by
          have hm := getD_mem_of_ne_nil cursors i (by rw [hcur]; simp)
          rw [hcur] at hm
          exact hpw _ hm
        have hx_le_xs : ∀ p ∈ xs, x ≤ p := (List.pairwise_cons.1 hpw_i).1
        have hv_le_x : v ≤ x := hinv (v, i) hm_mem x (by rw [hcur]; simp)
        have hb' : ∀ y ∈ (x, i) :: rest, v ≤ y.1 := by
          intro y hy
          rcases List.mem_cons.1 hy with rfl | hy'
          · exact hv_le_x
          · exact hmin y (hrest_sub y hy')
        have hinv' : ∀ y ∈ (x, i) :: rest, ∀ p ∈ (cursors.set i xs).getD y.2 [], y.1 ≤ p := by
          intro y hy p hp
          rcases List.mem_cons.1 hy with rfl | hy'
          · rw [getD_set_eq _ _ _ hi_len] at hp
            exact hx_le_xs p hp
          · by_cases hji : y.2 = i
            · rw [hji, getD_set_eq _ _ _ hi_len] at hp
              exact hinv y (hrest_sub y hy') p
                (by rw [hji, hcur]; exact List.mem_cons_of_mem _ hp)
            · rw [getD_set_ne _ _ _ _ (fun he => hji he.symm)] at hp
              exact hinv y (hrest_sub y hy') p hp
        have hpw' : ∀ l ∈ cursors.set i xs, List.Pairwise (· ≤ ·) l := by
          intro l hl
          rcases List.mem_or_eq_of_mem_set hl with hl' | rfl
          · exact hpw _ hl'
          · exact (List.pairwise_cons.1 hpw_i).2
        obtain ⟨ihc, ihb⟩ := ih ((x, i) :: rest) (cursors.set i xs) v hb' hinv' hpw'
        have hout : runMerge (fuel + 1) heap cursors =
            v :: runMerge fuel ((x, i) :: rest) (cursors.set i xs) := by
          simp [runMerge, hmn]
        rw [hout]
        constructor
        · rw [List.chain'_cons']
          exact ⟨fun y hy => ihb y (List.mem_of_mem_head? hy), ihc⟩
        · intro p hp
          rcases List.mem_cons.1 hp with rfl | hp'
          · exact hbv
          · exact le_trans hbv (ihb p hp')

/-- Every merged position comes from the heap or a cursor, so a common
upper bound on those is an upper bound on the output. -/
theorem runMerge_lt : ∀ (fuel : Nat) (heap : List (Nat × Nat))
    (cursors : List (List Nat)) (N : Nat)
    (_ : ∀ x ∈ heap, x.1 < N)
    (_ : ∀ l ∈ cursors, ∀ p ∈ l, p < N),
    ∀ p ∈ runMerge fuel heap cursors, p < N := by
  intro fuel
  induction fuel with
  | zero => intro heap cursors N _ _ p hp; simp [runMerge] at hp
  | succ fuel ih =>
    intro heap cursors N hh hc p hp
    rcases hpop : popMin heap with _ | ⟨⟨v, i⟩, rest⟩
    · have hmn : mergeNext heap cursors = none := by simp [mergeNext, hpop]
      simp [runMerge, hmn] at hp
    · obtain ⟨hm_mem, hrest_sub, _⟩ := popMin_spec heap (v, i) rest hpop
      rcases hcur : cursors.getD i [] with _ | ⟨x, xs⟩
      · have hmn : mergeNext heap cursors = some (v, rest, cursors) := by
          simp only [mergeNext, hpop, hcur]
        simp only [runMerge, hmn] at hp
        rcases List.mem_cons.1 hp with rfl | hp'
        · exact hh _ hm_mem
        · exact ih rest cursors N (fun y hy => hh y (hrest_sub y hy)) hc p hp'
      · have hmn : mergeNext heap cursors =
            some (v, (x, i) :: rest, cursors.set i xs) := by
          simp only [mergeNext, hpop, hcur]
        have hcur_mem := getD_mem_of_ne_nil cursors i (by rw [hcur]; simp)
        rw [hcur] at hcur_mem
        simp only [runMerge, hmn] at hp
        rcases List.mem_cons.1 hp with rfl | hp'
        · exact hh _ hm_mem
        · refine ih ((x, i) :: rest) (cursors.set i xs) N ?_ ?_ p hp'
          · intro y hy
            rcases List.mem_cons.1 hy with rfl | hy'
            · exact hc _ hcur_mem x (by simp)
            · exact hh y (hrest_sub y hy')
          · intro l hl q hq
            rcases List.mem_or_eq_of_mem_set hl with hl' | rfl
            · exact hc l hl' q hq
            · exact hc _ hcur_mem q (List.mem_cons_of_mem _ hq)

theorem seedHeapAux_spec : ∀ (ls : List (List Nat)) (k v i : Nat),
    (v, i) ∈ seedHeapAux k ls →
    k ≤ i ∧ ∃ t, ls.getD (i - k) [] = v :: t := by
  intro ls
  induction ls with
  | nil => intro k v i h; simp [seedHeapAux] at h
  | cons hd tl ih =>
    intro k v i h
    rcases hd with _ | ⟨v', t'⟩
    · obtain ⟨hk, t, ht⟩ := ih (k + 1) v i (by simpa [seedHeapAux] using h)
      refine ⟨by omega, t, ?_⟩
      have hik : i - k = (i - (k + 1)) + 1 := by omega
      rw [hik]
      simpa using ht
    · simp only [seedHeapAux, List.mem_cons] at h
      rcases h with h | h
      · obtain ⟨rfl, rfl⟩ : v = v' ∧ i = k := by simpa [Prod.ext_iff] using h
        exact ⟨le_refl _, t', by simp⟩
      · obtain ⟨hk, t, ht⟩ := ih (k + 1) v i h
        refine ⟨by omega, t, ?_⟩
        have hik : i - k = (i - (k + 1)) + 1 := by omega
        rw [hik]
        simpa using ht

theorem runMerge_single : ∀ (t : List Nat) (fuel v : Nat), t.length < fuel →
    runMerge fuel [(v, 0)] [t] = v :: t := by
  intro t
  induction t with
  | nil =>
    intro fuel v hf
    cases fuel with
    | zero => omega
    | succ f =>
      have hmn : mergeNext [(v, 0)] [[]] = some (v, [], [[]]) := by
        simp [mergeNext, popMin]
      simp [runMerge, hmn, runMerge_nil_heap]
  | cons x xs ih =>
    intro fuel v hf
    cases fuel with
    | zero => simp at hf
    | succ f =>
      have hmn : mergeNext [(v, 0)] [x :: xs] = some (v, [(x, 0)], [xs]) := by
        simp [mergeNext, popMin]
      have hrec := ih f x (by simpa using Nat.lt_of_succ_lt_succ hf)
      simp [runMerge, hmn, hrec]

theorem chain'_map_getD (dates : List Int)
    (hp : List.Pairwise (· ≤ ·) dates) :
    ∀ l : List Nat, List.Chain' (· ≤ ·) l → (∀ p ∈ l, p < dates.length) →
      List.Chain' (· ≤ ·) (l.map fun p => dates.getD p 0) := by
  intro l
  induction l with
  | nil => intro _ _; simp
  | cons x t ih =>
    intro hc hlt
    cases t with
    | nil => simp
    | cons y t' =>
      rw [List.chain'_cons] at hc
      have hxy : x ≤ y := hc.1
      have hx : x < dates.length := hlt x (by simp)
      have hy : y < dates.length := hlt y (by simp)
      have hdxy : dates.getD x 0 ≤ dates.getD y 0 := by
        rw [List.getD_eq_getElem?_getD, List.getElem?_eq_getElem hx,
          List.getD_eq_getElem?_getD, List.getElem?_eq_getElem hy]
        rcases eq_or_lt_of_le hxy with rfl | hlt'
        · simp
        · exact (List.pairwise_iff_getElem.1 hp) x y hx hy hlt'
      have htail := ih hc.2 (fun p hp' => hlt p (List.mem_cons_of_mem _ hp'))
      rw [List.map_cons, List.map_cons, List.chain'_cons]
      rw [List.map_cons] at htail
      exact ⟨hdxy, htail⟩

/-! ### Claim theorems: planner and merged iteration -/

/-- C8: the merged-holiday iteration yields positions (hence records, as
the global table is sorted by date) in non-decreasing date order, and over
a set whose member iteration yields exactly one country it reproduces that
country's position list. -/
theorem c8_merge_order_and_singleton :
    (∀ (words : List Nat) (count : Nat) (table : Nat → List Nat) (fuel : Nat)
        (dates : List Int),
      (∀ c, List.Pairwise (· ≤ ·) (table c)) →
      (∀ c, ∀ p ∈ table c, p < dates.length) →
      List.Pairwise (· ≤ ·) dates →
      List.Chain' (· ≤ ·)
        ((runHolidays fuel words count table).map (fun p => dates.getD p 0))) ∧
    (∀ (words : List Nat) (count : Nat) (table : Nat → List Nat) (c : Nat)
        (fuel : Nat),
      countryBits words count = [c] → (table c).length < fuel →
      runHolidays fuel words count table = table c) := by
  constructor
  · intro words count table fuel dates hsort hbound hdates
    have hcur_pw : ∀ l ∈ countrySetCursors words count table,
        List.Pairwise (· ≤ ·) l := by
      intro l hl
      obtain ⟨c, _, rfl⟩ := List.mem_map.1 hl
      exact hsort c
    have hcur_lt : ∀ l ∈ countrySetCursors words count table,
        ∀ p ∈ l, p < dates.length := by
      intro l hl
      obtain ⟨c, _, rfl⟩ := List.mem_map.1 hl
      exact hbound c
    have hseed : ∀ x ∈ countrySetHolidaysHeap words count table,
        ∃ t, (countrySetCursors words count table).getD x.2 [] = x.1 :: t := by
      intro x hx
      obtain ⟨_, t, ht⟩ := seedHeapAux_spec _ 0 x.1 x.2 hx
      exact ⟨t, by simpa using ht⟩
    have hchain : List.Chain' (· ≤ ·)
        (runHolidays fuel words count table) := by
      refine (runMerge_sorted fuel _ _ 0 (fun _ _ => Nat.zero_le _) ?_ ?_).1
      · intro x hx p hp
        obtain ⟨t, ht⟩ := hseed x hx
        rw [countrySetHolidaysTails, getD_map_drop, ht] at hp
        have hmem := getD_mem_of_ne_nil (countrySetCursors words count table)
          x.2 (by rw [ht]; simp)
        rw [ht] at hmem
        exact (List.pairwise_cons.1 (hcur_pw _ hmem)).1 p (by simpa using hp)
      · intro l hl
        obtain ⟨l', hl', rfl⟩ := List.mem_map.1 hl
        exact (hcur_pw l' hl').sublist (List.drop_sublist _ _)
    have hlt : ∀ p ∈ runHolidays fuel words count table, p < dates.length := by
      refine runMerge_lt fuel _ _ dates.length ?_ ?_
      · intro x hx
        obtain ⟨t, ht⟩ := hseed x hx
        have hmem := getD_mem_of_ne_nil (countrySetCursors words count table)
          x.2 (by rw [ht]; simp)
        rw [ht] at hmem
        exact hcur_lt _ hmem x.1 (by simp)
      · intro l hl
        obtain ⟨l', hl', rfl⟩ := List.mem_map.1 hl
        intro p hp
        exact hcur_lt l' hl' p (List.mem_of_mem_drop hp)
    exact chain'_map_getD dates hdates _ hchain hlt
  · intro words count table c fuel hbits hfuel
    unfold runHolidays countrySetHolidaysHeap countrySetHolidaysTails countrySetCursors
    rw [hbits]
    cases htc : table c with
    | nil =>
      simp only [List.map_cons, List.map_nil, htc, seedHeapAux]
      rw [runMerge_nil_heap]
    | cons x xs =>
      simp only [List.map_cons, List.map_nil, htc, seedHeapAux]
      rw [htc] at hfuel
      simpa using runMerge_single xs fuel x (by simpa using Nat.lt_of_succ_lt hfuel)

/-- Witness for C8 with two positions of country 1 over the date table
`[5, 7]`. -/
theorem c8_merge_order_and_singleton_witness :
    List.Chain' (· ≤ ·)
      ((runHolidays 3 [2] 64 (fun c => if c = 1 then [0, 1] else [])).map
        (fun p => ([5, 7] : List Int).getD p 0)) ∧
    runHolidays 3 [2] 64 (fun c => if c = 1 then [0, 1] else []) =
      (fun c : Nat => if c = 1 then [0, 1] else []) 1 := by
  constructor
  · refine c8_merge_order_and_singleton.1 [2] 64 _ 3 [5, 7] ?_ ?_ ?_
    · intro c
      by_cases hc : c = 1 <;> simp [hc]
    · intro c p hp
      by_cases hc : c = 1 <;> simp [hc] at hp
      · rcases hp with rfl | rfl <;> simp
    · simp
  · refine c8_merge_order_and_singleton.2 [2] 64 _ 1 3 (by decide) (by simp)

/-- C7: the planner selects the iteration strategy exactly by the shape of
the date predicate: a present empty predicate yields nothing; `Exact`
probes the exact-match table for each country in ascending ordinal order;
any other present predicate becomes a position-range scan filtered by
country membership; and an absent predicate delegates to the merged
holiday iteration of the country set. -/
theorem c7_planner_dispatch (hs : List SrcHoliday) (count : Nat)
    (table : Nat → List Nat) (fuel : Nat) (q : Query) :
    (∀ dq, q.date_filter = some dq → dq.is_empty = true →
      q.intoIterImpl hs count table = .empty ∧
      runIterImpl hs fuel (IterImpl.empty) = []) ∧
    (∀ d, q.date_filter = some (.Exact d) →
      (DateQuery.Exact d).is_empty = false ∧
      q.intoIterImpl hs count table = .exact (countryBits q.countries count) d ∧
      runIterImpl hs fuel (.exact (countryBits q.countries count) d)
        = (countryBits q.countries count).filterMap
            (fun c => country_date_to_holiday hs c d) ∧
      List.Chain' (· < ·) (countryBits q.countries count)) ∧
    (∀ dq, q.date_filter = some dq → dq.is_empty = false →
      (∀ d, dq ≠ .Exact d) →
      q.intoIterImpl hs count table
        = .dateRange (dq.as_data_range hs).1 (dq.as_data_range hs).2 q.countries ∧
      runIterImpl hs fuel
          (.dateRange (dq.as_data_range hs).1 (dq.as_data_range hs).2 q.countries)
        = (List.range' (dq.as_data_range hs).1
              ((dq.as_data_range hs).2 - (dq.as_data_range hs).1)).filter
            (fun i => csContains q.countries (hs.getD i default).country)) ∧
    (q.date_filter = none →
      q.intoIterImpl hs count table
        = .noDate (countrySetHolidaysHeap q.countries count table)
            (countrySetHolidaysTails q.countries count table) ∧
      runIterImpl hs fuel
          (.noDate (countrySetHolidaysHeap q.countries count table)
            (countrySetHolidaysTails q.countries count table))
        = runMerge fuel (countrySetHolidaysHeap q.countries count table)
            (countrySetHolidaysTails q.countries count table)) := by
  refine ⟨?_, ?_, ?_, ?_⟩
  · intro dq hdf he
    refine ⟨?_, rfl⟩
    simp [Query.intoIterImpl, hdf, he]
  · intro d hdf
    refine ⟨rfl, ?_, rfl, ?_⟩
    · simp [Query.intoIterImpl, hdf, DateQuery.is_empty]
    · apply List.Pairwise.chain'
      apply List.Pairwise.sublist (List.takeWhile_sublist _)
      exact (List.pairwise_lt_range _).filter _
  · intro dq hdf he hne
    refine ⟨?_, rfl⟩
    cases dq with
    | Exact d => exact absurd rfl (hne d)
    | FromDate d => simp [Query.intoIterImpl, hdf, he]
    | ToDate d => simp [Query.intoIterImpl, hdf, he]
    | DateRange a b => simp [Query.intoIterImpl, hdf, he]
  · intro h
    exact ⟨by simp [Query.intoIterImpl, h], rfl⟩

/-- Witness for C7 on a query with an empty, an exact, a range and an
absent date predicate. -/
theorem c7_planner_dispatch_witness :
    (Query.intoIterImpl [] 64 (fun _ => []) (Query.mk [1] (some DateQuery.EMPTY))
        = .empty ∧
      runIterImpl [] 1 (IterImpl.empty) = []) ∧
    (Query.intoIterImpl [] 64 (fun _ => []) (Query.mk [1] none)
        = .noDate (countrySetHolidaysHeap [1] 64 (fun _ => []))
            (countrySetHolidaysTails [1] 64 (fun _ => [])) ∧
      runIterImpl [] 1
          (.noDate (countrySetHolidaysHeap [1] 64 (fun _ => []))
            (countrySetHolidaysTails [1] 64 (fun _ => [])))
        = runMerge 1 (countrySetHolidaysHeap [1] 64 (fun _ => []))
            (countrySetHolidaysTails [1] 64 (fun _ => []))) :=
  ⟨(c7_planner_dispatch [] 64 (fun _ => []) 1
      (Query.mk [1] (some DateQuery.EMPTY))).1 DateQuery.EMPTY rfl (by decide),
    (c7_planner_dispatch [] 64 (fun _ => []) 1 (Query.mk [1] none)).2.2.2 rfl⟩

/-- C9: the `COUNTRY_JUMP_TABLE` generation loop runs over
`min_country..max_country` exclusive, so with enabled record-bearing
ordinals 0 and 2 the table has 2 entries and indexing it with the maximal
ordinal 2 is out of bounds (a panic in the source); the zero-record and
single-record behaviours hold for in-bounds ordinals. -/
theorem c9_country_table_misses_max_ordinal :
    dataMinCountry hsC9 = 0 ∧ dataMaxCountry hsC9 = 2 ∧
    (countryJumpTable hsC9).length = 2 ∧
    ¬ (dataMaxCountry hsC9 < (countryJumpTable hsC9).length) ∧
    boundsEntry hsC9 0 = some (0, 0) ∧
    boundsEntry hsC9 1 = none := by
  decide

end Holidays
